import Mathlib

/-!
Verification of `ghostly-session` (genomewalker/ghostly), a per-user
detachable terminal-session manager written as a single C++ file
(`src/ghostly-session/ghostly-session.cpp`).

This file gives a shallow embedding of the parts of the program the
verified properties are about:

* the frame codec `send_msg` / `recv_msg` (bytes modelled as `Nat < 256`,
  streams as `List Nat`);
* session-name validation `valid_session_name`;
* the daemon's in-memory `ServerState`, the SIGCHLD handler, client
  removal (`server_remove_client`), fan-out broadcast
  (`server_broadcast`), the per-event body of the `poll` loop
  (`server_step`), the loop itself (`run_loop`), the shutdown escalation
  (`run_shutdown`) and the whole daemon run (`daemon_run`);
* the attach client's event handling (`client_step`, `client_loop`).

Side effects (socket closes, info-file rewrites, PTY writes, signals,
sleeps) are reified as an explicit `Eff` trace.  I/O outcomes that
depend on the outside world (what `read`/`recv`/`waitpid`/`accept`
return, whether a `send` succeeds) are inputs to the embedded
functions, so every definition is executable.
-/

namespace Ghostly

/-! ## Protocol constants (§2 of the source) -/

def MSG_DATA : Nat := 0x01
def MSG_WINCH : Nat := 0x02
def MSG_DETACH : Nat := 0x03
def MSG_EXIT : Nat := 0x04
def MSG_HELLO : Nat := 0x05

def MAX_CLIENTS : Nat := 16
def MAX_NAME_LEN : Nat := 64
def DETACH_KEY : Nat := 0x1C

/-! ## Frame codec (`send_msg` / `recv_msg`, source §4)

A byte stream is a `List Nat` whose elements are below 256.  `send_msg`
produces the bytes written to the socket: a 5-byte header (type tag,
then the payload length as a big-endian 32-bit value) followed by the
payload.  `recv_msg` consumes a stream: it reads the 5 header bytes,
decodes the length, rejects lengths above 1 MiB, and returns the type,
the payload and the unconsumed rest (`none` models the `false` return:
disconnect or protocol error). -/

def send_msg (t : Nat) (payload : List Nat) : List Nat :=
  let len := payload.length
  [t % 256,
   len / 2 ^ 24 % 256,
   len / 2 ^ 16 % 256,
   len / 2 ^ 8 % 256,
   len % 256] ++ payload

def recv_msg (stream : List Nat) : Option (Nat × List Nat × List Nat) :=
  match stream with
  | t :: b1 :: b2 :: b3 :: b4 :: rest =>
    let len := b1 * 2 ^ 24 + b2 * 2 ^ 16 + b3 * 2 ^ 8 + b4
    if len = 0 then some (t, [], rest)
    else if len > 1024 * 1024 then none
    else if rest.length < len then none
    else some (t, rest.take len, rest.drop len)
  | _ => none

/-! ## Session-name validation (`valid_session_name`, source lines 87–98) -/

def allowed_char (c : Char) : Bool :=
  ('a' ≤ c && c ≤ 'z') || ('A' ≤ c && c ≤ 'Z') || ('0' ≤ c && c ≤ '9') ||
  c = '-' || c = '_' || c = '.'

def valid_session_name (name : String) : Bool :=
  if name.data.isEmpty || name.data.length > MAX_NAME_LEN then false
  else if name = "." || name = ".." then false
  else name.data.all allowed_char

/-- The spec's character class `[A-Za-z0-9._-]`, written from the spec's
words for comparison with the source's loop. -/
def spec_allowed (c : Char) : Prop :=
  ('A' ≤ c ∧ c ≤ 'Z') ∨ ('a' ≤ c ∧ c ≤ 'z') ∨ ('0' ≤ c ∧ c ≤ '9') ∨
  c = '.' ∨ c = '_' ∨ c = '-'

/-! ## Command entry points: the validation gate

`cmd_create`, `cmd_attach`, `cmd_open` and `cmd_kill` (source lines
618–624, 715–719, 848–854, 1085–1090) all begin with
`if (!valid_session_name(name)) return 1;` before performing any
side effect.  We embed that gate: `rest` stands for the remainder of
the command (its exit code and its side-effect trace); on an invalid
name the command returns exit code 1 and an empty effect trace.
(The diagnostic printed to `stderr` is not a side effect on the
registry and is not modelled.) -/

def cmd_create_gate (name : String) (rest : Nat × List Nat) : Nat × List Nat :=
  if !valid_session_name name then (1, []) else rest

def cmd_attach_gate (name : String) (rest : Nat × List Nat) : Nat × List Nat :=
  if !valid_session_name name then (1, []) else rest

def cmd_open_gate (name : String) (rest : Nat × List Nat) : Nat × List Nat :=
  if !valid_session_name name then (1, []) else rest

def cmd_kill_gate (name : String) (rest : Nat × List Nat) : Nat × List Nat :=
  if !valid_session_name name then (1, []) else rest

/-! ## Daemon state (struct `ServerState`, source lines 312–323)

Only the fields the verified properties depend on are carried; the
purely descriptive fields (`name`, `command`, `created`) and the raw
descriptors (`pty_master`, `listen_fd`) do not influence the control
flow that is modelled.  `clients` is the prefix `client_fds[0..num_clients)`
of the fd table, in table order. -/

structure ServerState where
  clients : List Nat
  child_pid : Int
  child_exit_code : Nat
  running : Bool
deriving DecidableEq, Repr

/-- A decoded `wait`-status: the child exited normally with the given
code (`WEXITSTATUS`), or was killed by the given signal (`WTERMSIG`).
`waitpid(…, WNOHANG)` without `WUNTRACED`/`WCONTINUED` reports exactly
these two kinds of events. -/
inductive WaitStatus where
  | exited (code : Nat)
  | signaled (sig : Nat)
deriving DecidableEq, Repr

/-- Reified side effects of the daemon.  `send` records a successfully
delivered frame (fd, type tag, payload); a failed `send_msg` delivers no
frame and appears only through the removal it triggers. -/
inductive Eff where
  | send (fd : Nat) (t : Nat) (payload : List Nat)
  | close (fd : Nat)
  | writeInfo (clients : Nat)
  | ptyWrite (payload : List Nat)
  | winsize (cols rows : Nat)
  | sigHup
  | sigTerm
  | sigKill
  | sleep (usec : Nat)
  | waitNohang
  | waitBlock
  | closeListen
  | closePty
  | unlinkFiles
deriving DecidableEq, Repr

/-- `server_sigchld` (source lines 327–341): if the child is unreaped,
try a non-blocking reap (`w` is its result); on success decode the wait
status (`exit_status`, or `128 + signal`), store it, and mark the child
reaped (`child_pid = -1`); in every case request event-loop shutdown. -/
def server_sigchld (srv : ServerState) (w : Option WaitStatus) : ServerState :=
  if srv.child_pid > 0 then
    match w with
    | some (.exited c) =>
        { srv with child_exit_code := c, child_pid := -1, running := false }
    | some (.signaled s) =>
        { srv with child_exit_code := 128 + s, child_pid := -1, running := false }
    | none => { srv with running := false }
  else srv

/-- `server_remove_client` (source lines 347–353) on the fd table:
overwrite slot `i` with the last slot, drop the last slot. -/
def server_remove_client (l : List Nat) (i : Nat) : List Nat :=
  (l.set i (l.getLastD 0)).dropLast

/-- `server_broadcast` (source lines 355–362), iterating indices
`i-1, i-2, …, 0` over the current table `l`: send the frame to each
client, removing (close + info rewrite) any client whose send fails.
`ok fd` is the outcome `send_msg` would report for that client's fd. -/
def bcast_iter (ok : Nat → Bool) (t : Nat) (p : List Nat) :
    Nat → List Nat → List Nat × List Eff
  | 0, l => (l, [])
  | i + 1, l =>
    let fd := l.getD i 0
    if ok fd then
      let r := bcast_iter ok t p i l
      (r.1, .send fd t p :: r.2)
    else
      let l' := server_remove_client l i
      let r := bcast_iter ok t p i l'
      (r.1, .close fd :: .writeInfo l'.length :: r.2)

def server_broadcast (ok : Nat → Bool) (t : Nat) (p : List Nat)
    (l : List Nat) : List Nat × List Eff :=
  bcast_iter ok t p l.length l

/-- Descriptors that actually received a frame in an effect trace. -/
def sendFds (tr : List Eff) : List Nat :=
  tr.filterMap fun e =>
    match e with
    | .send fd _ _ => some fd
    | _ => none

/-- Descriptors closed in an effect trace. -/
def closeFds (tr : List Eff) : List Nat :=
  tr.filterMap fun e =>
    match e with
    | .close fd => some fd
    | _ => none

/-- The client counts written to the info file in an effect trace. -/
def infoWrites (tr : List Eff) : List Nat :=
  tr.filterMap fun e =>
    match e with
    | .writeInfo n => some n
    | _ => none

/-- The frames delivered to one descriptor, in trace order. -/
def sendsTo (fd : Nat) (tr : List Eff) : List (Nat × List Nat) :=
  tr.filterMap fun e =>
    match e with
    | .send f t p => if f = fd then some (t, p) else none
    | _ => none

/-- The shutdown escalation (source lines 584–601).  `w1` and `w2` are
the results of the two `WNOHANG` waits (each `none` when `waitpid`
returned 0, i.e. the child had not changed state yet), `w3` the status
delivered by the final blocking wait.  A newly observed status is
combined into the stored exit code only when the code still holds its
initial 0 and the status is a normal exit (`WIFEXITED`). -/
def combine_exit (ec : Nat) : WaitStatus → Nat
  | .exited c => if ec = 0 then c else ec
  | .signaled _ => ec

def run_shutdown (srv : ServerState) (w1 w2 : Option WaitStatus)
    (w3 : WaitStatus) : ServerState × List Eff :=
  if srv.child_pid > 0 then
    match w1 with
    | some ws1 =>
        ({ srv with child_exit_code := combine_exit srv.child_exit_code ws1 },
         [.sigHup, .sleep 50000, .waitNohang])
    | none =>
      match w2 with
      | some ws2 =>
          ({ srv with child_exit_code := combine_exit srv.child_exit_code ws2 },
           [.sigHup, .sleep 50000, .waitNohang, .sigTerm, .sleep 100000,
            .waitNohang])
      | none =>
          ({ srv with child_exit_code := combine_exit srv.child_exit_code w3 },
           [.sigHup, .sleep 50000, .waitNohang, .sigTerm, .sleep 100000,
            .waitNohang, .sigKill, .waitBlock])
  else (srv, [])

/-! ## The daemon event loop (source lines 454–582)

One `poll` wake-up is serialised into events.  Each event carries the
outside-world outcome the corresponding system call would produce:
`accept fd frame` is a new connection whose handshake `recv_msg`
returned `frame` (`none`: failure or timeout); `ptyRead r ok` is a
readable PTY master whose `read` returned the bytes `r` (`none`: a
non-retryable error, `some []`: end of file), with `ok` the per-client
send outcomes of the resulting broadcast; `clientIn i frame` is a
readable (or hung-up, `frame = none`) client at table slot `i`;
`sigchld`/`sigterm` are signal-handler executions. -/

inductive Event where
  | accept (fd : Nat) (frame : Option (Nat × List Nat))
  | ptyRead (r : Option (List Nat)) (ok : Nat → Bool)
  | clientIn (i : Nat) (frame : Option (Nat × List Nat))
  | sigchld (w : Option WaitStatus)
  | sigterm

/-- Removal of the client at slot `i` (`server_remove_client`, source
lines 347–353): close its socket, swap-remove the table entry, rewrite
the info file with the new count. -/
def remove_client_state (s : ServerState) (i : Nat) : ServerState × List Eff :=
  ({ s with clients := server_remove_client s.clients i },
   [.close (s.clients.getD i 0), .writeInfo (s.clients.length - 1)])

/-- One iteration of the daemon's event loop body for one event. -/
def server_step (s : ServerState) (e : Event) : ServerState × List Eff :=
  match e with
  | .accept fd frame =>
    -- source lines 476–521
    if s.clients.length ≥ MAX_CLIENTS then (s, [.close fd])
    else
      match frame with
      | some (t, p) =>
        if t = MSG_HELLO ∧ p.length = 4 then
          ({ s with clients := s.clients ++ [fd] },
           [.winsize (p.getD 0 0 * 256 + p.getD 1 0)
              (p.getD 2 0 * 256 + p.getD 3 0),
            .writeInfo (s.clients.length + 1)])
        else (s, [.close fd])
      | none => (s, [.close fd])
  | .ptyRead r ok =>
    -- source lines 525–537
    match r with
    | some d =>
      if d.isEmpty then ({ s with running := false }, [])
      else
        let r2 := server_broadcast ok MSG_DATA d s.clients
        ({ s with clients := r2.1 }, r2.2)
    | none => ({ s with running := false }, [])
  | .clientIn i frame =>
    -- source lines 539–581 (one client's dispatch)
    if i < s.clients.length then
      match frame with
      | none => remove_client_state s i
      | some (t, p) =>
        if t = MSG_DATA then
          (s, if p.isEmpty then [] else [.ptyWrite p])
        else if t = MSG_WINCH then
          (s, if p.length = 4 then
              [.winsize (p.getD 0 0 * 256 + p.getD 1 0)
                 (p.getD 2 0 * 256 + p.getD 3 0)]
            else [])
        else if t = MSG_DETACH then remove_client_state s i
        else (s, [])
    else (s, [])
  | .sigchld w => (server_sigchld s w, [])
  | .sigterm => ({ s with running := false }, [])

/-- The `while (srv.running)` event loop. -/
def run_loop (s : ServerState) : List Event → ServerState × List Eff
  | [] => (s, [])
  | e :: es =>
    if s.running then
      let r := server_step s e
      let r2 := run_loop r.1 es
      (r2.1, r.2 ++ r2.2)
    else (s, [])

/-- The operating system hands `accept` a descriptor that is not already
in use, hence not in the client table. -/
def event_fresh (s : ServerState) : Event → Bool
  | .accept fd _ => !s.clients.contains fd
  | _ => true

/-- Well-formedness of an event sequence: every `accept` along the run
carries a fresh descriptor (events past the loop's stop are ignored and
unconstrained, matching `run_loop`). -/
def eventsWF (s : ServerState) : List Event → Bool
  | [] => true
  | e :: es =>
    if s.running then event_fresh s e && eventsWF (server_step s e).1 es
    else true

/-- The daemon states reachable from a fresh daemon (no clients yet,
source lines 435–445) by event-loop steps. -/
inductive Reachable : ServerState → Prop where
  | init (s : ServerState) (h0 : s.clients = []) : Reachable s
  | step (s : ServerState) (e : Event) (hs : Reachable s)
      (hr : s.running = true) : Reachable (server_step s e).1

/-- A whole daemon run (source `run_server`, lines 400–616): the event
loop until the running flag clears, the shutdown escalation, the
single-byte EXIT broadcast (`(uint8_t)srv.child_exit_code`), closing
every remaining client socket, the listening socket and the PTY master,
and removal of the three registry files.  Returns the recorded exit
code and the full effect trace. -/
def daemon_run (s0 : ServerState) (events : List Event)
    (w1 w2 : Option WaitStatus) (w3 : WaitStatus) (okExit : Nat → Bool) :
    Nat × List Eff :=
  let r1 := run_loop s0 events
  let r2 := run_shutdown r1.1 w1 w2 w3
  let ec := r2.1.child_exit_code % 256
  let r3 := server_broadcast okExit MSG_EXIT [ec] r2.1.clients
  (r2.1.child_exit_code,
   r1.2 ++ r2.2 ++ r3.2 ++ r3.1.map Eff.close ++
     [.closeListen, .closePty, .unlinkFiles])

/-! ## The attach client (source `cmd_attach`, lines 715–842)

Events of the client loop: a chunk read from stdin (`[]` models
`read` returning 0, i.e. end of file), a frame received from the socket
(`none`: `recv_msg` failed), hang-up on the socket, or the SIGWINCH
flag observed.  A send failure of a forwarded DATA chunk also stops the
loop in the source; send outcomes are not modelled here, which only
adds runs in which every send succeeds. -/

inductive CEvent where
  | stdin (chunk : List Nat)
  | sock (frame : Option (Nat × List Nat))
  | hup
  | winch
deriving Repr

/-- Reified side effects of the attach client. -/
inductive CEff where
  | sendDetach
  | sendData (chunk : List Nat)
  | sendWinch
  | stdoutWrite (p : List Nat)
  | termRestore
  | printDetached
deriving DecidableEq, Repr

/-- The byte-wise detach-key scan of one stdin chunk (source lines
789–799). -/
def scan_detach : List Nat → Bool
  | [] => false
  | b :: rest => if b = DETACH_KEY then true else scan_detach rest

/-- One iteration of the client loop for one event: returns the new
recorded exit code, the new running flag, and the effects. -/
def client_step (ec : Nat) : CEvent → Nat × Bool × List CEff
  | .stdin chunk =>
    -- source lines 783–808
    if chunk.isEmpty then (ec, false, [])
    else if scan_detach chunk then
      (ec, false, [.sendDetach, .termRestore, .printDetached])
    else (ec, true, [.sendData chunk])
  | .sock frame =>
    -- source lines 811–833
    match frame with
    | none => (ec, false, [])
    | some (t, p) =>
      if t = MSG_DATA then
        (ec, true, if p.isEmpty then [] else [.stdoutWrite p])
      else if t = MSG_EXIT then
        ((if p.length ≥ 1 then p.getD 0 0 else ec), false, [])
      else (ec, true, [])
  | .hup => (ec, false, [])
  | .winch => (ec, true, [.sendWinch])

/-- The client's `while (running)` loop; the exit code starts at 0 in
`cmd_attach` and is returned when the loop ends. -/
def client_loop (running : Bool) (ec : Nat) : List CEvent → Nat × List CEff
  | [] => (ec, [])
  | e :: es =>
    if running then
      let r := client_step ec e
      let r2 := client_loop r.2.1 r.1 es
      (r2.1, r.2.2 ++ r2.2)
    else (ec, [])

/-! ## Theorems -/

/-- Helper: decoding the four big-endian length bytes produced by
`send_msg` recovers the length, for any length below `2^32`. -/
theorem be32_round (len : Nat) (h : len < 2 ^ 32) :
    len / 2 ^ 24 % 256 * 2 ^ 24 + len / 2 ^ 16 % 256 * 2 ^ 16 +
      len / 2 ^ 8 % 256 * 2 ^ 8 + len % 256 = len := by
  omega

/-- C5: for every message type tag and every payload of length at most
1 MiB, `recv_msg` decodes what `send_msg` encoded — same type, same
payload bytes, rest of the stream untouched — and any frame whose
declared (big-endian) payload length exceeds 1 MiB is a protocol error:
`recv_msg` fails. -/
theorem send_recv_roundtrip (t : Nat) (payload rest : List Nat)
    (ht : t < 256) (hlen : payload.length ≤ 1024 * 1024) :
    recv_msg (send_msg t payload ++ rest) = some (t, payload, rest) ∧
    ∀ u b1 b2 b3 b4 s,
      b1 * 2 ^ 24 + b2 * 2 ^ 16 + b3 * 2 ^ 8 + b4 > 1024 * 1024 →
      recv_msg (u :: b1 :: b2 :: b3 :: b4 :: s) = none := by
  constructor
  · have hlt : payload.length < 2 ^ 32 := by omega
    have hdec := be32_round payload.length hlt
    simp only [send_msg, recv_msg, List.cons_append, List.nil_append]
    rw [hdec]
    rcases Nat.eq_zero_or_pos payload.length with h0 | hpos
    · have : payload = [] := List.eq_nil_of_length_eq_zero h0
      subst this
      simp [Nat.mod_eq_of_lt ht]
    · have hne : ¬ payload.length = 0 := by omega
      have hgt : ¬ payload.length > 1024 * 1024 := by omega
      have htk : (payload ++ rest).take payload.length = payload :=
        List.take_left payload rest
      have hdr : (payload ++ rest).drop payload.length = rest :=
        List.drop_left payload rest
      have hlenle : ¬ (payload ++ rest).length < payload.length := by
        simp [List.length_append]
      simp [hne, hgt, hlenle, htk, hdr, Nat.mod_eq_of_lt ht]
  · intro u b1 b2 b3 b4 s hbig
    have h0 : ¬ (((b1 = 0 ∧ b2 = 0) ∧ b3 = 0) ∧ b4 = 0) := by omega
    simp [recv_msg, h0, hbig]
    omega

/-- Witness for `send_recv_roundtrip` at a concrete frame. -/
theorem send_recv_roundtrip_witness :
    recv_msg (send_msg MSG_DATA [104, 105] ++ [9]) =
      some (MSG_DATA, [104, 105], [9]) :=
  (send_recv_roundtrip MSG_DATA [104, 105] [9] (by decide) (by decide)).1

/-- Helper: the source's per-character check agrees with the spec's
character class `[A-Za-z0-9._-]`. -/
theorem allowed_char_iff (c : Char) : allowed_char c = true ↔ spec_allowed c := by
  simp only [allowed_char, spec_allowed, Bool.or_eq_true, Bool.and_eq_true,
    decide_eq_true_eq]
  tauto

/-- Helper: characterisation of `valid_session_name`. -/
theorem valid_session_name_iff (name : String) :
    valid_session_name name = true ↔
      1 ≤ name.data.length ∧ name.data.length ≤ MAX_NAME_LEN ∧
      (∀ c ∈ name.data, spec_allowed c) ∧ name ≠ "." ∧ name ≠ ".." := by
  unfold valid_session_name
  constructor
  · intro h
    split at h
    · exact absurd h (by simp)
    · split at h
      · exact absurd h (by simp)
      · next hc1 hc2 =>
        simp only [Bool.or_eq_true, List.isEmpty_eq_true, decide_eq_true_eq,
          not_or] at hc1 hc2
        rw [List.all_eq_true] at h
        refine ⟨?_, ?_, fun c hc => (allowed_char_iff c).mp (h c hc), hc2.1, hc2.2⟩
        · have := hc1.1
          cases hd : name.data with
          | nil => exact absurd hd this
          | cons a l => simp [hd]
        · omega
  · rintro ⟨h1, h2, h3, h4, h5⟩
    rw [if_neg, if_neg]
    · rw [List.all_eq_true]
      exact fun c hc => (allowed_char_iff c).mpr (h3 c hc)
    · simp only [Bool.or_eq_true, decide_eq_true_eq, not_or]
      exact ⟨h4, h5⟩
    · simp only [Bool.or_eq_true, List.isEmpty_eq_true, decide_eq_true_eq, not_or]
      constructor
      · intro hd; rw [hd] at h1; simp at h1
      · omega

/-- C3: a session name is valid exactly when it has length 1..64 over the
class `[A-Za-z0-9._-]` and is neither `"."` nor `".."`; the boundary
examples `""`, `"."`, `".."`, a 65-character name, a name with `'/'` and a
name with a NUL byte are all invalid; and the `create`, `attach`, `open`
and `kill` entry points refuse an invalid name with exit code 1 and an
empty side-effect trace. -/
theorem session_name_validation (name : String) (rest : Nat × List Nat)
    (hinv : valid_session_name name = false) :
    (valid_session_name name = true ↔
      1 ≤ name.data.length ∧ name.data.length ≤ MAX_NAME_LEN ∧
      (∀ c ∈ name.data, spec_allowed c) ∧ name ≠ "." ∧ name ≠ "..") ∧
    valid_session_name "" = false ∧
    valid_session_name "." = false ∧
    valid_session_name ".." = false ∧
    valid_session_name (String.mk (List.replicate 65 'a')) = false ∧
    valid_session_name "a/b" = false ∧
    valid_session_name "a\x00b" = false ∧
    cmd_create_gate name rest = (1, []) ∧
    cmd_attach_gate name rest = (1, []) ∧
    cmd_open_gate name rest = (1, []) ∧
    cmd_kill_gate name rest = (1, []) := by
  refine ⟨valid_session_name_iff name, by decide, by decide, by decide,
    by decide, by decide, by decide, ?_, ?_, ?_, ?_⟩ <;>
    simp [cmd_create_gate, cmd_attach_gate, cmd_open_gate, cmd_kill_gate, hinv]

/-- Witness for `session_name_validation` at the concrete invalid name
`"a/b"`. -/
theorem session_name_validation_witness :
    valid_session_name "a/b" = false ∧
    cmd_create_gate "a/b" (0, [7]) = (1, []) :=
  ⟨(session_name_validation "a/b" (0, [7]) (by decide)).2.2.2.2.2.1,
   (session_name_validation "a/b" (0, [7]) (by decide)).2.2.2.2.2.2.2.1⟩

/-- C7: when the SIGCHLD handler reaps the child, the stored exit code
is the exit status on normal exit and `128 + signal` on death by
signal; the child-pid slot becomes the reaped sentinel `-1` and the
running flag is cleared. -/
theorem sigchld_decodes_status (srv : ServerState) (c s : Nat)
    (h : srv.child_pid > 0) :
    (server_sigchld srv (some (.exited c))).child_exit_code = c ∧
    (server_sigchld srv (some (.signaled s))).child_exit_code = 128 + s ∧
    (server_sigchld srv (some (.exited c))).child_pid = -1 ∧
    (server_sigchld srv (some (.signaled s))).child_pid = -1 ∧
    (server_sigchld srv (some (.exited c))).running = false ∧
    (server_sigchld srv (some (.signaled s))).running = false := by
  simp [server_sigchld, h]

/-- Witness for `sigchld_decodes_status` at a concrete state. -/
theorem sigchld_decodes_status_witness :
    (server_sigchld ⟨[], 5, 0, true⟩ (some (.exited 3))).child_exit_code = 3 ∧
    (server_sigchld ⟨[], 5, 0, true⟩ (some (.signaled 9))).child_exit_code =
      128 + 9 :=
  ⟨(sigchld_decodes_status ⟨[], 5, 0, true⟩ 3 9 (by decide)).1,
   (sigchld_decodes_status ⟨[], 5, 0, true⟩ 3 9 (by decide)).2.1⟩

/-- C1 counterexample: the claim says any newly observed wait-status —
normal exit **or death by signal** — is combined into the stored exit
code when none was recorded.  But at shutdown with a still-unreaped
child (pid 5, stored code 0) whose first `WNOHANG` wait reports death
by signal 9, the code leaves the stored exit code at 0 instead of
`128 + 9`: line 598 combines only under `WIFEXITED`. -/
theorem shutdown_combine_cex :
    (run_shutdown ⟨[], 5, 0, true⟩ (some (.signaled 9)) none
        (.exited 0)).1.child_exit_code = 0 ∧
    (run_shutdown ⟨[], 5, 0, true⟩ (some (.signaled 9)) none
        (.exited 0)).1.child_exit_code ≠ 128 + 9 := by
  decide

/-- C1 (amended): if the child is unreaped the daemon sends SIGHUP,
waits ~50 ms, checks with a non-blocking wait, then — if the child had
not yet changed state — sends SIGTERM, waits ~100 ms, checks again, and
finally sends SIGKILL followed by a blocking wait; the first observed
wait-status is combined into the stored exit code only when it is a
normal exit and the stored code is still 0 — a death-by-signal status
observed here leaves the stored code unchanged.  If the child was
already reaped, nothing happens. -/
theorem shutdown_sequence (srv : ServerState) (w1 w2 : Option WaitStatus)
    (w3 : WaitStatus) :
    (srv.child_pid > 0 →
      (run_shutdown srv w1 w2 w3).2 =
        [.sigHup, .sleep 50000, .waitNohang] ++
        (if w1 = none then [Eff.sigTerm, .sleep 100000, .waitNohang] else []) ++
        (if w1 = none ∧ w2 = none then [Eff.sigKill, .waitBlock] else []) ∧
      (run_shutdown srv w1 w2 w3).1.child_exit_code =
        combine_exit srv.child_exit_code (w1.getD (w2.getD w3))) ∧
    (¬ srv.child_pid > 0 → run_shutdown srv w1 w2 w3 = (srv, [])) ∧
    (∀ ec c, combine_exit ec (.exited c) = if ec = 0 then c else ec) ∧
    (∀ ec s, combine_exit ec (.signaled s) = ec) := by
  refine ⟨?_, ?_, fun ec c => rfl, fun ec s => rfl⟩
  · intro h
    cases w1 with
    | some ws1 => simp [run_shutdown, h]
    | none =>
      cases w2 with
      | some ws2 => simp [run_shutdown, h]
      | none => simp [run_shutdown, h]
  · intro h
    simp [run_shutdown, h]

/-- Witness for `shutdown_sequence`: a child that survives both
non-blocking checks receives the full HUP → TERM → KILL escalation. -/
theorem shutdown_sequence_witness :
    (run_shutdown ⟨[], 5, 0, true⟩ none none (.exited 3)).2 =
      [.sigHup, .sleep 50000, .waitNohang] ++
      [Eff.sigTerm, .sleep 100000, .waitNohang] ++
      [Eff.sigKill, .waitBlock] ∧
    (run_shutdown ⟨[], 5, 0, true⟩ none none
        (.exited 3)).1.child_exit_code = combine_exit 0 (.exited 3) := by
  have h := (shutdown_sequence ⟨[], 5, 0, true⟩ none none (.exited 3)).1
    (by decide)
  exact ⟨by rw [h.1]; decide, h.2⟩

/-! ### Helpers about `server_remove_client` -/

/-- Helper: taking strictly before a `set` ignores the `set`. -/
theorem take_set_self (l : List Nat) (i : Nat) (b : Nat) :
    (l.set i b).take i = l.take i :=
  List.ext_getElem? fun j => by
    rw [List.getElem?_take, List.getElem?_take]
    split
    · next h' => rw [List.getElem?_set_ne (by omega)]
    · rfl

/-- Helper: the default value of `getLastD` is irrelevant on a nonempty
list: it is the last element. -/
theorem getLastD_eq_getLast (l : List Nat) (h : l ≠ []) :
    l.getLastD 0 = l.getLast h := by
  rw [List.getLastD_eq_getLast?, List.getLast?_eq_getLast l h, Option.getD_some]

/-- Helper: swap-removal produces a permutation of plain index removal. -/
theorem removeClient_perm (l : List Nat) (i : Nat) (h : i < l.length) :
    (server_remove_client l i).Perm (l.eraseIdx i) := by
  unfold server_remove_client
  rw [List.set_eq_take_cons_drop _ h, List.eraseIdx_eq_take_drop_succ]
  by_cases hlast : l.length ≤ i + 1
  · have hd : l.drop (i + 1) = [] := List.drop_eq_nil_of_le hlast
    rw [hd]
    simp
  · have hne : l.drop (i + 1) ≠ [] := by
      have : 0 < (l.drop (i + 1)).length := by simp only [List.length_drop]; omega
      exact List.ne_nil_of_length_pos this
    rw [List.dropLast_append_cons]
    have hcons : (l.getLastD 0 :: l.drop (i + 1)).dropLast
        = l.getLastD 0 :: (l.drop (i + 1)).dropLast := by
      cases hD : l.drop (i + 1) with
      | nil => exact absurd hD hne
      | cons d D => rw [List.dropLast_cons₂]
    rw [hcons]
    apply List.Perm.append_left
    have hb : l.getLastD 0 = (l.drop (i + 1)).getLast hne := by
      rw [List.getLast_drop]
      exact getLastD_eq_getLast l (List.ne_nil_of_length_pos (by omega))
    have heq : (l.drop (i + 1)).dropLast ++ [l.getLastD 0] = l.drop (i + 1) := by
      rw [hb]; exact List.dropLast_append_getLast hne
    have hp : (l.getLastD 0 :: (l.drop (i + 1)).dropLast).Perm
        ((l.drop (i + 1)).dropLast ++ [l.getLastD 0]) :=
      (List.perm_append_singleton _ _).symm
    rw [heq] at hp
    exact hp

/-- Helper: swap-removal shrinks the table by one. -/
theorem removeClient_length (l : List Nat) (i : Nat) :
    (server_remove_client l i).length = l.length - 1 := by
  simp [server_remove_client]

/-- Helper: swap-removal leaves the slots before the freed one alone. -/
theorem removeClient_take (l : List Nat) (i : Nat) (h : i < l.length) :
    (server_remove_client l i).take i = l.take i := by
  unfold server_remove_client
  rw [List.dropLast_eq_take, List.take_take, List.length_set]
  have hmin : min i (l.length - 1) = i := by omega
  rw [hmin, take_set_self]

/-- Helper: every element at or after the freed slot after swap-removal
came from strictly after the freed slot. -/
theorem removeClient_drop_mem (l : List Nat) (i x : Nat) (h : i < l.length)
    (hx : x ∈ (server_remove_client l i).drop i) : x ∈ l.drop (i + 1) := by
  unfold server_remove_client at hx
  rw [List.dropLast_eq_take, List.drop_take, List.length_set, List.drop_set] at hx
  simp only [Nat.lt_irrefl, if_false, Nat.sub_self] at hx
  rw [List.drop_eq_getElem_cons h, List.set_cons_zero] at hx
  by_cases hk : l.length - 1 - i = 0
  · rw [hk, List.take_zero] at hx
    exact absurd hx (List.not_mem_nil x)
  · have hmem := List.take_subset _ _ hx
    rcases List.mem_cons.mp hmem with hxb | hxd
    · have hDne : l.drop (i + 1) ≠ [] := by
        have : 0 < (l.drop (i + 1)).length := by simp only [List.length_drop]; omega
        exact List.ne_nil_of_length_pos this
      have hb : l.getLastD 0 = (l.drop (i + 1)).getLast hDne := by
        rw [List.getLast_drop]
        exact getLastD_eq_getLast l (List.ne_nil_of_length_pos (by omega))
      rw [hxb, hb]
      exact List.getLast_mem hDne
    · exact hxd

/-- C10: `server_remove_client` removes the client at slot `i` by moving
the last descriptor into that slot and shrinking the table: the result
holds exactly the previous descriptors minus the removed one (as a
multiset), has one fewer entry, and — whenever the freed slot was not
the last — the old last descriptor now sits in the freed slot, so the
relative order of the survivors is not preserved. -/
theorem remove_client_swaps_last (l : List Nat) (i : Nat) (h : i < l.length) :
    (server_remove_client l i).Perm (l.eraseIdx i) ∧
    (server_remove_client l i).length = l.length - 1 ∧
    (i + 1 < l.length →
      (server_remove_client l i).getD i 0 = l.getD (l.length - 1) 0) := by
  refine ⟨removeClient_perm l i h, removeClient_length l i, fun hlt => ?_⟩
  have hilen : i < (server_remove_client l i).length := by
    rw [removeClient_length]; omega
  rw [List.getD_eq_getElem _ _ hilen, List.getD_eq_getElem _ _ (by omega)]
  unfold server_remove_client
  rw [List.getElem_dropLast]
  simp only [List.getElem_set_self]
  have hlne : l ≠ [] := List.ne_nil_of_length_pos (by omega)
  rw [getLastD_eq_getLast l hlne, List.getLast_eq_getElem]

/-- Witness for `remove_client_swaps_last` on the table `[10, 20, 30]`,
removing slot 0: the result is `[30, 20]`. -/
theorem remove_client_swaps_last_witness :
    (server_remove_client [10, 20, 30] 0).Perm ([10, 20, 30].eraseIdx 0) ∧
    (server_remove_client [10, 20, 30] 0).getD 0 0 = 30 :=
  ⟨(remove_client_swaps_last [10, 20, 30] 0 (by decide)).1,
   ((remove_client_swaps_last [10, 20, 30] 0 (by decide)).2.2
      (by decide)).trans (by decide)⟩

/-! ### Helpers about `server_broadcast` -/

/-- Helper: the broadcast loop started at index `i` of table `l`, with
every slot at or above `i` already successfully served: the surviving
table is a permutation of the clients whose send succeeds, the served
descriptors are exactly the succeeding ones among the first `i` slots,
and the closed descriptors exactly the failing ones. -/
theorem bcast_iter_spec (ok : Nat → Bool) (t : Nat) (p : List Nat) :
    ∀ (i : Nat) (l : List Nat), i ≤ l.length →
      (∀ x ∈ l.drop i, ok x = true) →
      (bcast_iter ok t p i l).1.Perm (l.filter ok) ∧
      (sendFds (bcast_iter ok t p i l).2).Perm ((l.take i).filter ok) ∧
      (closeFds (bcast_iter ok t p i l).2).Perm
        ((l.take i).filter fun x => !ok x) := by
  intro i
  induction i with
  | zero =>
    intro l _ hall
    simp only [bcast_iter, List.take_zero, List.filter_nil]
    refine ⟨?_, by simp [sendFds], by simp [closeFds]⟩
    rw [List.filter_eq_self.mpr (by simpa using hall)]
  | succ i ih =>
    intro l hlen hall
    have hi : i < l.length := by omega
    have hfd : l.getD i 0 = l[i] := List.getD_eq_getElem l 0 hi
    have htake : l.take (i + 1) = l.take i ++ [l[i]] := by
      rw [List.take_succ, List.getElem?_eq_getElem hi]
      rfl
    simp only [bcast_iter]
    by_cases hok : ok (l.getD i 0) = true
    · have hoki : ok l[i] = true := by rw [← hfd]; exact hok
      have hall' : ∀ x ∈ l.drop i, ok x = true := by
        intro x hx
        rw [List.drop_eq_getElem_cons hi] at hx
        rcases List.mem_cons.mp hx with h1 | h2
        · rw [h1]; exact hoki
        · exact hall x h2
      have IH := ih l (by omega) hall'
      simp only [hok, if_true]
      refine ⟨IH.1, ?_, ?_⟩
      · simp only [sendFds, List.filterMap_cons]
        rw [htake, List.filter_append]
        have hfl : [l[i]].filter ok = [l[i]] := by
          simp [List.filter, hoki]
        rw [hfl, hfd]
        exact (IH.2.1.cons l[i]).trans
          (List.perm_append_singleton l[i] _).symm
      · simp only [closeFds, List.filterMap_cons]
        rw [htake, List.filter_append]
        have hfl : [l[i]].filter (fun x => !ok x) = [] := by
          simp [List.filter, hoki]
        rw [hfl, List.append_nil]
        exact IH.2.2
    · have hokf : ok (l.getD i 0) = false := by
        revert hok; cases ok (l.getD i 0) <;> simp
      have hoki : ok l[i] = false := by rw [← hfd]; exact hokf
      have hlen' : i ≤ (server_remove_client l i).length := by
        rw [removeClient_length]; omega
      have hall'' : ∀ x ∈ (server_remove_client l i).drop i, ok x = true :=
        fun x hx => hall x (removeClient_drop_mem l i x hi hx)
      have IH := ih (server_remove_client l i) hlen' hall''
      simp only [hokf, if_false, Bool.false_eq_true]
      have hperm : (server_remove_client l i).Perm (l.eraseIdx i) :=
        removeClient_perm l i hi
      have herase : (l.eraseIdx i).filter ok = l.filter ok := by
        conv_rhs => rw [← List.take_append_drop i l, List.drop_eq_getElem_cons hi]
        rw [List.eraseIdx_eq_take_drop_succ, List.filter_append, List.filter_append,
          List.filter_cons_of_neg (by rw [hoki]; simp)]
      have htk : (server_remove_client l i).take i = l.take i :=
        removeClient_take l i hi
      refine ⟨IH.1.trans ((hperm.filter ok).trans (by rw [herase])), ?_, ?_⟩
      · simp only [sendFds, List.filterMap_cons]
        rw [htake, List.filter_append]
        have hfl : [l[i]].filter ok = [] := by
          simp [List.filter, hoki]
        rw [hfl, List.append_nil]
        exact IH.2.1.trans (by rw [htk])
      · simp only [closeFds, List.filterMap_cons]
        rw [htake, List.filter_append]
        have hfl : [l[i]].filter (fun x => !ok x) = [l[i]] := by
          simp [List.filter, hoki]
        rw [hfl, hfd]
        have h2 := htk ▸ IH.2.2
        exact (h2.cons l[i]).trans (List.perm_append_singleton l[i] _).symm

/-- Helper: every frame the broadcast loop delivers is the broadcast
frame `(t, p)`. -/
theorem bcast_iter_send_frames (ok : Nat → Bool) (t : Nat) (p : List Nat) :
    ∀ (i : Nat) (l : List Nat) (f t' : Nat) (p' : List Nat),
      Eff.send f t' p' ∈ (bcast_iter ok t p i l).2 → t' = t ∧ p' = p := by
  intro i
  induction i with
  | zero => intro l f t' p' h; simp [bcast_iter] at h
  | succ i ih =>
    intro l f t' p' h
    simp only [bcast_iter] at h
    split at h
    · rcases List.mem_cons.mp h with h1 | h2
      · simp only [Eff.send.injEq] at h1
        exact ⟨h1.2.1, h1.2.2⟩
      · exact ih l f t' p' h2
    · rcases List.mem_cons.mp h with h1 | h2
      · simp at h1
      · rcases List.mem_cons.mp h2 with h3 | h4
        · simp at h3
        · exact ih _ f t' p' h4

/-- Helper: when every slot below `i` succeeds, the broadcast loop
removes nobody: no close, no info rewrite, table unchanged. -/
theorem bcast_iter_no_removals (ok : Nat → Bool) (t : Nat) (p : List Nat) :
    ∀ (i : Nat) (l : List Nat), i ≤ l.length →
      (∀ x ∈ l.take i, ok x = true) →
      closeFds (bcast_iter ok t p i l).2 = [] ∧
      infoWrites (bcast_iter ok t p i l).2 = [] ∧
      (bcast_iter ok t p i l).1 = l := by
  intro i
  induction i with
  | zero => intro l _ _; simp [bcast_iter, closeFds, infoWrites]
  | succ i ih =>
    intro l hlen hall
    have hi : i < l.length := by omega
    have htake : l.take (i + 1) = l.take i ++ [l[i]] := by
      rw [List.take_succ, List.getElem?_eq_getElem hi]; rfl
    have hoki : ok (l.getD i 0) = true := by
      rw [List.getD_eq_getElem l 0 hi]
      exact hall _ (by rw [htake]; exact List.mem_append_right _ (by simp))
    have hall' : ∀ x ∈ l.take i, ok x = true := fun x hx =>
      hall x (by rw [htake]; exact List.mem_append_left _ hx)
    have IH := ih l (by omega) hall'
    simp only [bcast_iter, hoki, if_true]
    refine ⟨?_, ?_, IH.2.2⟩
    · simp only [closeFds, List.filterMap_cons]; exact IH.1
    · simp only [infoWrites, List.filterMap_cons]; exact IH.2.1

/-! Projection equations for the trace projections (all definitional). -/

theorem sendFds_send (fd t : Nat) (p : List Nat) (tr : List Eff) :
    sendFds (Eff.send fd t p :: tr) = fd :: sendFds tr := rfl

theorem sendFds_close (fd : Nat) (tr : List Eff) :
    sendFds (Eff.close fd :: tr) = sendFds tr := rfl

theorem sendFds_writeInfo (n : Nat) (tr : List Eff) :
    sendFds (Eff.writeInfo n :: tr) = sendFds tr := rfl

theorem closeFds_send (fd t : Nat) (p : List Nat) (tr : List Eff) :
    closeFds (Eff.send fd t p :: tr) = closeFds tr := rfl

theorem closeFds_close (fd : Nat) (tr : List Eff) :
    closeFds (Eff.close fd :: tr) = fd :: closeFds tr := rfl

theorem closeFds_writeInfo (n : Nat) (tr : List Eff) :
    closeFds (Eff.writeInfo n :: tr) = closeFds tr := rfl

theorem infoWrites_send (fd t : Nat) (p : List Nat) (tr : List Eff) :
    infoWrites (Eff.send fd t p :: tr) = infoWrites tr := rfl

theorem infoWrites_close (fd : Nat) (tr : List Eff) :
    infoWrites (Eff.close fd :: tr) = infoWrites tr := rfl

theorem infoWrites_writeInfo (n : Nat) (tr : List Eff) :
    infoWrites (Eff.writeInfo n :: tr) = n :: infoWrites tr := rfl

/-- Helper: when the only failing descriptor among the first `i` slots
is `fd` (present at most once there), the broadcast loop closes exactly
`fd` — if it is present — and writes the info file exactly once, with
the shrunken client count. -/
theorem bcast_iter_single_failure (ok : Nat → Bool) (t : Nat) (p : List Nat)
    (fd : Nat) (hfail : ok fd = false) :
    ∀ (i : Nat) (l : List Nat), i ≤ l.length →
      (∀ x ∈ l.take i, x ≠ fd → ok x = true) →
      (l.take i).count fd ≤ 1 →
      closeFds (bcast_iter ok t p i l).2 =
        (if fd ∈ l.take i then [fd] else []) ∧
      infoWrites (bcast_iter ok t p i l).2 =
        (if fd ∈ l.take i then [l.length - 1] else []) := by
  intro i
  induction i with
  | zero => intro l _ _ _; simp [bcast_iter, closeFds, infoWrites]
  | succ i ih =>
    intro l hlen hall hcount
    have hi : i < l.length := by omega
    have htake : l.take (i + 1) = l.take i ++ [l[i]] := by
      rw [List.take_succ, List.getElem?_eq_getElem hi]; rfl
    have hfdi : l.getD i 0 = l[i] := List.getD_eq_getElem l 0 hi
    by_cases hx : l[i] = fd
    · -- the failing client sits at slot `i`
      have hoki : ok (l.getD i 0) = false := by rw [hfdi, hx]; exact hfail
      have hnotin : fd ∉ l.take i := by
        rw [← List.count_eq_zero]
        rw [htake, List.count_append, hx] at hcount
        simp at hcount
        omega
      have hallok : ∀ x ∈ (server_remove_client l i).take i, ok x = true := by
        intro x hxm
        rw [removeClient_take l i hi] at hxm
        refine hall x (by rw [htake]; exact List.mem_append_left _ hxm) ?_
        intro hxe
        exact hnotin (hxe ▸ hxm)
      have hlen' : i ≤ (server_remove_client l i).length := by
        rw [removeClient_length]; omega
      have hnorem := bcast_iter_no_removals ok t p i
        (server_remove_client l i) hlen' hallok
      have hmem : fd ∈ l.take (i + 1) := by
        rw [htake, hx]; exact List.mem_append_right _ (by simp)
      simp only [bcast_iter, hoki, if_false, Bool.false_eq_true]
      refine ⟨?_, ?_⟩
      · rw [if_pos hmem, closeFds_close, closeFds_writeInfo, hnorem.1, hfdi, hx]
      · rw [if_pos hmem, infoWrites_close, infoWrites_writeInfo, hnorem.2.1,
          removeClient_length]
    · -- slot `i` succeeds
      have hoki : ok (l.getD i 0) = true := by
        rw [hfdi]
        exact hall _ (by rw [htake]; exact List.mem_append_right _ (by simp)) hx
      have hall' : ∀ x ∈ l.take i, x ≠ fd → ok x = true := fun x hxm =>
        hall x (by rw [htake]; exact List.mem_append_left _ hxm)
      have hcount' : (l.take i).count fd ≤ 1 := by
        rw [htake, List.count_append] at hcount
        omega
      have IH := ih l (by omega) hall' hcount'
      have hmemiff : fd ∈ l.take (i + 1) ↔ fd ∈ l.take i := by
        rw [htake]
        simp only [List.mem_append, List.mem_singleton]
        constructor
        · rintro (h | h)
          · exact h
          · exact absurd h.symm hx
        · exact Or.inl
      simp only [bcast_iter, hoki, if_true]
      refine ⟨?_, ?_⟩
      · rw [closeFds_send, IH.1]
        simp only [hmemiff]
      · rw [infoWrites_send, IH.2]
        simp only [hmemiff]

/-- C6: during fan-out of one PTY read over the client table `l`
(distinct descriptors), if sending the frame fails for exactly the
client `fd` and succeeds for every other client, then: the surviving
table holds exactly the other clients (as a multiset); exactly those
other clients receive a frame, each exactly once, despite the in-place
removal during the back-to-front iteration; exactly `fd`'s socket is
closed; the info file is rewritten exactly once, with the shrunken
client count; and every delivered frame is the broadcast frame
`(t, p)`. -/
theorem broadcast_removes_only_failed (ok : Nat → Bool) (t : Nat)
    (p : List Nat) (l : List Nat) (fd : Nat)
    (hnd : l.Nodup) (hmem : fd ∈ l) (hfail : ok fd = false)
    (hok : ∀ x ∈ l, x ≠ fd → ok x = true) :
    (server_broadcast ok t p l).1.Perm (l.erase fd) ∧
    (sendFds (server_broadcast ok t p l).2).Perm (l.erase fd) ∧
    closeFds (server_broadcast ok t p l).2 = [fd] ∧
    infoWrites (server_broadcast ok t p l).2 = [l.length - 1] ∧
    (∀ f t' p', Eff.send f t' p' ∈ (server_broadcast ok t p l).2 →
      t' = t ∧ p' = p) := by
  have hspec := bcast_iter_spec ok t p l.length l (Nat.le_refl _)
    (by simp)
  rw [List.take_length] at hspec
  have herase : l.erase fd = l.filter ok := by
    rw [hnd.erase_eq_filter fd]
    refine (List.filter_congr ?_).symm
    intro x hx
    by_cases hxf : x = fd
    · subst hxf
      simp [hfail]
    · rw [hok x hx hxf]
      simp [bne_iff_ne, hxf]
  have hsingle := bcast_iter_single_failure ok t p fd hfail l.length l
    (Nat.le_refl _)
    (by rw [List.take_length]; exact hok)
    (by rw [List.take_length]; exact List.nodup_iff_count_le_one.mp hnd fd)
  rw [List.take_length, if_pos hmem, if_pos hmem] at hsingle
  refine ⟨?_, ?_, hsingle.1, hsingle.2, ?_⟩
  · rw [herase]; exact hspec.1
  · rw [herase]; exact hspec.2.1
  · exact fun f t' p' h => bcast_iter_send_frames ok t p l.length l f t' p' h

/-- Witness for `broadcast_removes_only_failed`: table `[1, 2, 3]`,
sends to descriptor 2 fail. -/
theorem broadcast_removes_only_failed_witness :
    (sendFds (server_broadcast (fun x => decide (x ≠ 2)) MSG_DATA [65]
        [1, 2, 3]).2).Perm ([1, 2, 3].erase 2) ∧
    closeFds (server_broadcast (fun x => decide (x ≠ 2)) MSG_DATA [65]
        [1, 2, 3]).2 = [2] ∧
    infoWrites (server_broadcast (fun x => decide (x ≠ 2)) MSG_DATA [65]
        [1, 2, 3]).2 = [2] := by
  have h := broadcast_removes_only_failed (fun x => decide (x ≠ 2)) MSG_DATA
    [65] [1, 2, 3] 2 (by decide) (by decide) (by decide)
    (by intro x hx hne; simp [hne])
  exact ⟨h.2.1, h.2.2.1, h.2.2.2.1⟩

/-- Helper: a stopped client loop consumes nothing and keeps its exit
code. -/
theorem client_loop_stopped (ec : Nat) (es : List CEvent) :
    client_loop false ec es = (ec, []) := by
  cases es <;> simp [client_loop]

/-- C8: a stdin chunk containing the detach key 0x1C anywhere is never
forwarded — not even the bytes before the detach byte: the client sends
one empty DETACH frame, restores the terminal, prints the detached
notice, and stops; started with exit code 0 (as `cmd_attach` does), the
loop then ends immediately with exit code 0, whatever events follow. -/
theorem detach_key_aborts_chunk (ec : Nat) (chunk : List Nat)
    (rest : List CEvent) (hdet : scan_detach chunk = true) :
    client_step ec (.stdin chunk) =
      (ec, false, [.sendDetach, .termRestore, .printDetached]) ∧
    client_loop true 0 (.stdin chunk :: rest) =
      (0, [.sendDetach, .termRestore, .printDetached]) := by
  have hne : chunk.isEmpty = false := by
    cases chunk with
    | nil => simp [scan_detach] at hdet
    | cons b bs => rfl
  constructor
  · simp [client_step, hne, hdet]
  · simp [client_loop, client_step, hne, hdet, client_loop_stopped]

/-- Witness for `detach_key_aborts_chunk`: the detach byte sits in the
middle of the chunk, a DATA frame is still pending on the socket, yet
nothing is forwarded and the client exits with code 0. -/
theorem detach_key_aborts_chunk_witness :
    client_loop true 0
      (CEvent.stdin [65, DETACH_KEY, 66] :: [.sock (some (MSG_DATA, [7]))]) =
      (0, [.sendDetach, .termRestore, .printDetached]) :=
  (detach_key_aborts_chunk 0 [65, DETACH_KEY, 66]
    [.sock (some (MSG_DATA, [7]))] (by decide)).2

/-- C9: the attach client accepts an EXIT frame of any payload length:
with a nonempty payload it records the first byte as the exit code
(ignoring the rest) and stops; with an empty payload it stops leaving
the exit code unchanged. -/
theorem exit_frame_any_length (ec : Nat) (p : List Nat) :
    (p ≠ [] → client_step ec (.sock (some (MSG_EXIT, p))) =
      (p.getD 0 0, false, [])) ∧
    client_step ec (.sock (some (MSG_EXIT, []))) = (ec, false, []) := by
  constructor
  · intro hne
    have hlen : p.length ≥ 1 := by
      cases p with
      | nil => exact absurd rfl hne
      | cons a l => simp
    simp [client_step, MSG_DATA, MSG_EXIT, hlen]
  · simp [client_step, MSG_DATA, MSG_EXIT]

/-- Witness for `exit_frame_any_length` at a 2-byte EXIT payload. -/
theorem exit_frame_any_length_witness :
    client_step 0 (.sock (some (MSG_EXIT, [7, 9]))) = (7, false, []) :=
  ((exit_frame_any_length 0 [7, 9]).1 (by decide)).trans (by decide)

/-! ### Helpers for the event-loop invariants -/

/-- Helper: one event-loop step never pushes the client count above
`MAX_CLIENTS`. -/
theorem step_clients_le (s : ServerState) (e : Event)
    (h : s.clients.length ≤ MAX_CLIENTS) :
    (server_step s e).1.clients.length ≤ MAX_CLIENTS := by
  cases e with
  | accept fd frame =>
    cases frame with
    | none =>
      simp only [server_step]
      by_cases hfull : s.clients.length ≥ MAX_CLIENTS
      · rw [if_pos hfull]; exact h
      · rw [if_neg hfull]; exact h
    | some tp =>
      obtain ⟨t, p⟩ := tp
      simp only [server_step]
      by_cases hfull : s.clients.length ≥ MAX_CLIENTS
      · rw [if_pos hfull]; exact h
      · rw [if_neg hfull]
        by_cases hh : t = MSG_HELLO ∧ p.length = 4
        · rw [if_pos hh]
          show (s.clients ++ [fd]).length ≤ MAX_CLIENTS
          rw [List.length_append, List.length_singleton]
          omega
        · rw [if_neg hh]
          exact h
  | ptyRead r ok =>
    cases r with
    | none => exact h
    | some d =>
      simp only [server_step]
      by_cases hd : d.isEmpty = true
      · rw [if_pos hd]
        exact h
      · rw [if_neg hd]
        have hb := (bcast_iter_spec ok MSG_DATA d s.clients.length s.clients
          (Nat.le_refl _) (by simp)).1
        have hlen := hb.length_eq
        have hfl : (s.clients.filter ok).length ≤ s.clients.length :=
          List.length_filter_le ok s.clients
        show (server_broadcast ok MSG_DATA d s.clients).1.length ≤ MAX_CLIENTS
        simp only [server_broadcast]
        omega
  | clientIn i frame =>
    cases frame with
    | none =>
      simp only [server_step]
      by_cases hi : i < s.clients.length
      · rw [if_pos hi]
        show (server_remove_client s.clients i).length ≤ MAX_CLIENTS
        rw [removeClient_length]
        omega
      · rw [if_neg hi]
        exact h
    | some tp =>
      obtain ⟨t, p⟩ := tp
      simp only [server_step]
      by_cases hi : i < s.clients.length
      · rw [if_pos hi]
        by_cases h1 : t = MSG_DATA
        · rw [if_pos h1]
          exact h
        · rw [if_neg h1]
          by_cases h2 : t = MSG_WINCH
          · rw [if_pos h2]
            exact h
          · rw [if_neg h2]
            by_cases h3 : t = MSG_DETACH
            · rw [if_pos h3]
              show (server_remove_client s.clients i).length ≤ MAX_CLIENTS
              rw [removeClient_length]
              omega
            · rw [if_neg h3]
              exact h
      · rw [if_neg hi]
        exact h
  | sigchld w =>
    simp only [server_step, server_sigchld]
    by_cases hp : s.child_pid > 0
    · rw [if_pos hp]
      cases w with
      | none => exact h
      | some ws => cases ws <;> exact h
    · rw [if_neg hp]
      exact h
  | sigterm => exact h

/-- Helper: every reachable daemon state holds at most `MAX_CLIENTS`
clients. -/
theorem reachable_clients_le (s : ServerState) (h : Reachable s) :
    s.clients.length ≤ MAX_CLIENTS := by
  induction h with
  | init s h0 => rw [h0]; simp [MAX_CLIENTS]
  | step s e hs hr ih => exact step_clients_le s e ih

/-- C4: at every reachable daemon state at most `MAX_CLIENTS = 16`
clients are attached; an accept while the table is full closes the new
connection and changes nothing; a connection is admitted — appended to
the table with the info file rewritten with the grown count — exactly
on a HELLO frame with a 4-byte payload, and any other handshake outcome
closes the connection and changes nothing. -/
theorem client_cap_invariant (s : ServerState) (fd : Nat)
    (frame : Option (Nat × List Nat)) (hreach : Reachable s) :
    s.clients.length ≤ MAX_CLIENTS ∧
    (s.clients.length = MAX_CLIENTS →
      server_step s (.accept fd frame) = (s, [.close fd])) ∧
    (∀ t p, frame = some (t, p) → s.clients.length < MAX_CLIENTS →
      t = MSG_HELLO → p.length = 4 →
      (server_step s (.accept fd frame)).1.clients = s.clients ++ [fd] ∧
      Eff.writeInfo (s.clients.length + 1) ∈ (server_step s (.accept fd frame)).2) ∧
    (∀ t p, frame = some (t, p) → ¬(t = MSG_HELLO ∧ p.length = 4) →
      server_step s (.accept fd frame) = (s, [.close fd])) ∧
    (frame = none → server_step s (.accept fd frame) = (s, [.close fd])) := by
  refine ⟨reachable_clients_le s hreach, ?_, ?_, ?_, ?_⟩
  · intro hfull
    simp [server_step, hfull]
  · intro t p hf hlt ht hp
    subst hf
    have hnfull : ¬ s.clients.length ≥ MAX_CLIENTS := by omega
    simp [server_step, hnfull, ht, hp]
  · intro t p hf hno
    subst hf
    by_cases hfull : s.clients.length ≥ MAX_CLIENTS
    · simp [server_step, hfull]
    · simp [server_step, hfull, hno]
  · intro hf
    subst hf
    by_cases hfull : s.clients.length ≥ MAX_CLIENTS <;>
      simp [server_step, hfull]

/-- Witness for `client_cap_invariant`: a fresh daemon (empty table)
admits a client delivering `HELLO` with a 4-byte payload. -/
theorem client_cap_invariant_witness :
    (⟨[], 5, 0, true⟩ : ServerState).clients.length ≤ MAX_CLIENTS ∧
    (server_step ⟨[], 5, 0, true⟩
        (.accept 7 (some (MSG_HELLO, [0, 80, 0, 24])))).1.clients = [7] := by
  have h := client_cap_invariant ⟨[], 5, 0, true⟩ 7
    (some (MSG_HELLO, [0, 80, 0, 24])) (Reachable.init _ rfl)
  refine ⟨h.1, ?_⟩
  have h2 := (h.2.2.1 MSG_HELLO [0, 80, 0, 24] rfl (by decide) rfl
    (by decide)).1
  exact h2.trans (by decide)

/-! ### Helpers for the EXIT-is-final property -/

/-- Helper: `sendsTo` distributes over trace concatenation. -/
theorem sendsTo_append (fd : Nat) (t1 t2 : List Eff) :
    sendsTo fd (t1 ++ t2) = sendsTo fd t1 ++ sendsTo fd t2 := by
  simp [sendsTo, List.filterMap_append]

/-- Helper: a non-`send` effect contributes nothing to `sendsTo`. -/
theorem sendsTo_cons_not_send (fd : Nat) (e : Eff) (tr : List Eff)
    (h : ∀ f t p, e ≠ Eff.send f t p) :
    sendsTo fd (e :: tr) = sendsTo fd tr := by
  cases e <;> first | rfl | exact absurd rfl (h _ _ _)

theorem sendsTo_cons_send_eq (fd t : Nat) (p : List Nat) (tr : List Eff) :
    sendsTo fd (Eff.send fd t p :: tr) = (t, p) :: sendsTo fd tr := by
  simp [sendsTo, List.filterMap_cons]

theorem sendsTo_cons_send_ne (fd f t : Nat) (p : List Nat) (tr : List Eff)
    (h : f ≠ fd) :
    sendsTo fd (Eff.send f t p :: tr) = sendsTo fd tr := by
  simp [sendsTo, List.filterMap_cons, h]

theorem sendFds_cons_not_send (e : Eff) (tr : List Eff)
    (h : ∀ f t p, e ≠ Eff.send f t p) :
    sendFds (e :: tr) = sendFds tr := by
  cases e <;> first | rfl | exact absurd rfl (h _ _ _)

/-- Helper: a frame listed by `sendsTo fd` really was sent to `fd`. -/
theorem sendsTo_mem (fd : Nat) (tr : List Eff) (tp : Nat × List Nat)
    (h : tp ∈ sendsTo fd tr) : Eff.send fd tp.1 tp.2 ∈ tr := by
  induction tr with
  | nil => simp [sendsTo] at h
  | cons e es ih =>
    by_cases hsend : ∃ f t p, e = Eff.send f t p
    · obtain ⟨f, t, p, rfl⟩ := hsend
      by_cases hf : f = fd
      · subst hf
        rw [sendsTo_cons_send_eq] at h
        rcases List.mem_cons.mp h with h1 | h2
        · subst h1; exact List.mem_cons_self _ _
        · exact List.mem_cons_of_mem _ (ih h2)
      · rw [sendsTo_cons_send_ne fd f t p es hf] at h
        exact List.mem_cons_of_mem _ (ih h)
    · have hns : ∀ f t p, e ≠ Eff.send f t p := fun f t p he =>
        hsend ⟨f, t, p, he⟩
      rw [sendsTo_cons_not_send fd e es hns] at h
      exact List.mem_cons_of_mem _ (ih h)

/-- Helper: the number of frames `fd` receives equals the number of
times `fd` occurs among the served descriptors. -/
theorem sendsTo_length_count (fd : Nat) (tr : List Eff) :
    (sendsTo fd tr).length = (sendFds tr).count fd := by
  induction tr with
  | nil => rfl
  | cons e es ih =>
    by_cases hsend : ∃ f t p, e = Eff.send f t p
    · obtain ⟨f, t, p, rfl⟩ := hsend
      by_cases hf : f = fd
      · subst hf
        rw [sendsTo_cons_send_eq, sendFds_send, List.length_cons,
          List.count_cons_self, ih]
      · rw [sendsTo_cons_send_ne fd f t p es hf, sendFds_send,
          List.count_cons_of_ne (Ne.symm hf) , ih]
    · have hns : ∀ f t p, e ≠ Eff.send f t p := fun f t p he =>
        hsend ⟨f, t, p, he⟩
      rw [sendsTo_cons_not_send fd e es hns, sendFds_cons_not_send e es hns, ih]

/-- Helper: closing the leftover sockets sends nothing. -/
theorem sendsTo_map_close (fd : Nat) (l : List Nat) :
    sendsTo fd (l.map Eff.close) = [] := by
  induction l with
  | nil => rfl
  | cons x xs ih =>
    rw [List.map_cons,
      sendsTo_cons_not_send fd _ _ (fun f t p h => Eff.noConfusion h)]
    exact ih

/-- Helper: the shutdown escalation sends no frame. -/
theorem run_shutdown_sendsTo (fd : Nat) (srv : ServerState)
    (w1 w2 : Option WaitStatus) (w3 : WaitStatus) :
    sendsTo fd (run_shutdown srv w1 w2 w3).2 = [] := by
  unfold run_shutdown
  split
  · cases w1 with
    | some ws1 => rfl
    | none =>
      cases w2 with
      | some ws2 => rfl
      | none => rfl
  · rfl

/-- Helper: the shutdown escalation leaves the client table alone. -/
theorem run_shutdown_clients (srv : ServerState)
    (w1 w2 : Option WaitStatus) (w3 : WaitStatus) :
    (run_shutdown srv w1 w2 w3).1.clients = srv.clients := by
  unfold run_shutdown
  split
  · cases w1 with
    | some ws1 => rfl
    | none =>
      cases w2 with
      | some ws2 => rfl
      | none => rfl
  · rfl

/-- Helper: the SIGCHLD handler leaves the client table alone. -/
theorem sigchld_clients (srv : ServerState) (w : Option WaitStatus) :
    (server_sigchld srv w).clients = srv.clients := by
  unfold server_sigchld
  split
  · cases w with
    | none => rfl
    | some ws => cases ws <;> rfl
  · rfl

/-- Helper: every frame an event-loop step delivers is a DATA frame. -/
theorem step_sends_data (s : ServerState) (e : Event) (f t : Nat)
    (p : List Nat) (h : Eff.send f t p ∈ (server_step s e).2) :
    t = MSG_DATA := by
  cases e with
  | accept fd frame =>
    cases frame with
    | none =>
      simp only [server_step] at h
      split at h <;> simp at h
    | some tp =>
      obtain ⟨t', p'⟩ := tp
      simp only [server_step] at h
      split at h
      · simp at h
      · split at h <;> simp at h
  | ptyRead r ok =>
    cases r with
    | none => simp [server_step] at h
    | some d =>
      simp only [server_step] at h
      split at h
      · simp at h
      · exact (bcast_iter_send_frames ok MSG_DATA d s.clients.length
          s.clients f t p (by simpa [server_broadcast] using h)).1
  | clientIn i frame =>
    cases frame with
    | none =>
      simp only [server_step, remove_client_state] at h
      split at h <;> simp at h
    | some tp =>
      obtain ⟨t', p'⟩ := tp
      simp only [server_step, remove_client_state] at h
      split at h
      · split at h
        · split at h <;> simp at h
        · split at h
          · split at h <;> simp at h
          · split at h <;> simp at h
      · simp at h
  | sigchld w => simp [server_step] at h
  | sigterm => simp [server_step] at h

/-- Helper: every frame the event loop delivers is a DATA frame. -/
theorem run_loop_sends_data :
    ∀ (events : List Event) (s : ServerState) (f t : Nat) (p : List Nat),
      Eff.send f t p ∈ (run_loop s events).2 → t = MSG_DATA := by
  intro events
  induction events with
  | nil => intro s f t p h; simp [run_loop] at h
  | cons e es ih =>
    intro s f t p h
    simp only [run_loop] at h
    split at h
    · rw [List.mem_append] at h
      rcases h with h | h
      · exact step_sends_data s e f t p h
      · exact ih _ f t p h
    · simp at h

/-- Helper: one step preserves distinctness of the client descriptors,
given that `accept` hands out a fresh descriptor. -/
theorem step_nodup (s : ServerState) (e : Event)
    (hnd : s.clients.Nodup) (hf : event_fresh s e = true) :
    (server_step s e).1.clients.Nodup := by
  cases e with
  | accept fd frame =>
    have hfd : fd ∉ s.clients := by
      simpa [event_fresh] using hf
    cases frame with
    | none =>
      simp only [server_step]
      split
      · exact hnd
      · exact hnd
    | some tp =>
      obtain ⟨t, p⟩ := tp
      simp only [server_step]
      split
      · exact hnd
      · split
        · show (s.clients ++ [fd]).Nodup
          exact List.Nodup.append hnd (List.nodup_singleton fd)
            (fun x hx hx1 => hfd ((List.mem_singleton.mp hx1) ▸ hx))
        · exact hnd
  | ptyRead r ok =>
    cases r with
    | none => exact hnd
    | some d =>
      simp only [server_step]
      split
      · exact hnd
      · show (server_broadcast ok MSG_DATA d s.clients).1.Nodup
        have hb := (bcast_iter_spec ok MSG_DATA d s.clients.length s.clients
          (Nat.le_refl _) (by simp)).1
        exact hb.symm.nodup ((List.filter_sublist s.clients).nodup hnd)
  | clientIn i frame =>
    have hrm : ∀ j, (server_remove_client s.clients j).Nodup ∨
        ¬ j < s.clients.length → True := fun _ _ => trivial
    cases frame with
    | none =>
      simp only [server_step, remove_client_state]
      split
      · next hi =>
        show (server_remove_client s.clients i).Nodup
        exact (removeClient_perm s.clients i hi).symm.nodup
          ((List.eraseIdx_sublist s.clients i).nodup hnd)
      · exact hnd
    | some tp =>
      obtain ⟨t, p⟩ := tp
      simp only [server_step, remove_client_state]
      split
      · next hi =>
        split
        · exact hnd
        · split
          · exact hnd
          · split
            · show (server_remove_client s.clients i).Nodup
              exact (removeClient_perm s.clients i hi).symm.nodup
                ((List.eraseIdx_sublist s.clients i).nodup hnd)
            · exact hnd
      · exact hnd
  | sigchld w =>
    rw [show (server_step s (.sigchld w)).1 = server_sigchld s w from rfl,
      sigchld_clients]
    exact hnd
  | sigterm => exact hnd

/-- Helper: along a well-formed run, the client table keeps distinct
descriptors. -/
theorem run_loop_nodup :
    ∀ (events : List Event) (s : ServerState), s.clients.Nodup →
      eventsWF s events = true → (run_loop s events).1.clients.Nodup := by
  intro events
  induction events with
  | nil => intro s hnd _; exact hnd
  | cons e es ih =>
    intro s hnd hwf
    simp only [run_loop]
    simp only [eventsWF] at hwf
    by_cases hr : s.running = true
    · rw [if_pos hr] at hwf ⊢
      rw [Bool.and_eq_true] at hwf
      exact ih _ (step_nodup s e hnd hwf.1) hwf.2
    · rw [if_neg hr]
      exact hnd

/-- C2: along any well-formed daemon run from a fresh state, for every
client descriptor, an EXIT frame can occur only as the very last frame
delivered to that descriptor — after the daemon emits EXIT to a client
it never emits a DATA frame (or any other frame) to it. -/
theorem exit_frame_is_final (s0 : ServerState) (events : List Event)
    (w1 w2 : Option WaitStatus) (w3 : WaitStatus) (okExit : Nat → Bool)
    (fd : Nat) (h0 : s0.clients = []) (hwf : eventsWF s0 events = true)
    (i : Nat) (tp : Nat × List Nat)
    (hget : (sendsTo fd (daemon_run s0 events w1 w2 w3 okExit).2)[i]? = some tp)
    (hexit : tp.1 = MSG_EXIT) :
    i = (sendsTo fd (daemon_run s0 events w1 w2 w3 okExit).2).length - 1 := by
  have hsplit : sendsTo fd (daemon_run s0 events w1 w2 w3 okExit).2
      = sendsTo fd (run_loop s0 events).2 ++
        sendsTo fd (server_broadcast okExit MSG_EXIT
          [(run_shutdown (run_loop s0 events).1 w1 w2 w3).1.child_exit_code % 256]
          (run_shutdown (run_loop s0 events).1 w1 w2 w3).1.clients).2 := by
    simp only [daemon_run]
    rw [sendsTo_append, sendsTo_append, sendsTo_append, sendsTo_append,
      run_shutdown_sendsTo, sendsTo_map_close]
    simp [sendsTo]
  rw [hsplit] at hget ⊢
  have hAdata : ∀ q ∈ sendsTo fd (run_loop s0 events).2, q.1 = MSG_DATA := by
    intro q htq
    exact run_loop_sends_data events s0 fd q.1 q.2 (sendsTo_mem fd _ q htq)
  have hnd1 : (run_loop s0 events).1.clients.Nodup :=
    run_loop_nodup events s0 (by rw [h0]; exact List.nodup_nil) hwf
  have hnd2 : (run_shutdown (run_loop s0 events).1 w1 w2 w3).1.clients.Nodup := by
    rw [run_shutdown_clients]; exact hnd1
  have hClen : (sendsTo fd (server_broadcast okExit MSG_EXIT
      [(run_shutdown (run_loop s0 events).1 w1 w2 w3).1.child_exit_code % 256]
      (run_shutdown (run_loop s0 events).1 w1 w2 w3).1.clients).2).length ≤ 1 := by
    rw [sendsTo_length_count]
    have hspec := (bcast_iter_spec okExit MSG_EXIT
      [(run_shutdown (run_loop s0 events).1 w1 w2 w3).1.child_exit_code % 256]
      (run_shutdown (run_loop s0 events).1 w1 w2 w3).1.clients.length
      (run_shutdown (run_loop s0 events).1 w1 w2 w3).1.clients
      (Nat.le_refl _) (by simp)).2.1
    rw [List.take_length] at hspec
    calc (sendFds (server_broadcast okExit MSG_EXIT
          [(run_shutdown (run_loop s0 events).1 w1 w2 w3).1.child_exit_code % 256]
          (run_shutdown (run_loop s0 events).1 w1 w2 w3).1.clients).2).count fd
        = ((run_shutdown (run_loop s0 events).1 w1 w2 w3).1.clients.filter
            okExit).count fd := hspec.count_eq fd
      _ ≤ ((run_shutdown (run_loop s0 events).1 w1 w2 w3).1.clients).count fd :=
          (List.filter_sublist _).count_le fd
      _ ≤ 1 := List.nodup_iff_count_le_one.mp hnd2 fd
  have hi : i < (sendsTo fd (run_loop s0 events).2 ++
      sendsTo fd (server_broadcast okExit MSG_EXIT
        [(run_shutdown (run_loop s0 events).1 w1 w2 w3).1.child_exit_code % 256]
        (run_shutdown (run_loop s0 events).1 w1 w2 w3).1.clients).2).length := by
    rcases List.getElem?_eq_some.mp hget with ⟨hlt, _⟩
    exact hlt
  by_cases hiA : i < (sendsTo fd (run_loop s0 events).2).length
  · exfalso
    rw [List.getElem?_append, if_pos hiA] at hget
    have hmem : tp ∈ sendsTo fd (run_loop s0 events).2 :=
      List.getElem?_mem hget
    have := hAdata tp hmem
    rw [hexit] at this
    exact absurd this (by decide)
  · rw [List.length_append] at hi ⊢
    omega

/-- Witness for `exit_frame_is_final`: one client attaches, the child
exits with code 3, the daemon shuts down and the EXIT frame is the one
and only frame on the client's stream. -/
theorem exit_frame_is_final_witness :
    0 = (sendsTo 7 (daemon_run ⟨[], 5, 0, true⟩
        [.accept 7 (some (MSG_HELLO, [0, 80, 0, 24]))]
        (some (.exited 3)) none (.exited 0) (fun _ => true)).2).length - 1 :=
  exit_frame_is_final ⟨[], 5, 0, true⟩
    [.accept 7 (some (MSG_HELLO, [0, 80, 0, 24]))]
    (some (.exited 3)) none (.exited 0) (fun _ => true) 7 rfl
    (by decide) 0 (MSG_EXIT, [3]) (by decide) rfl

end Ghostly
